import Mathlib

/-!
# Verification of the document-ingestion path of the SAM Law portal

Shallow embedding of `src/utils/file_handler.py`:
`allowed_file`, `get_file_hash`, `save_uploaded_file`, `get_file_path`
and `delete_file`, together with models of the external pieces they use
(werkzeug's `secure_filename`, Python's `mimetypes.guess_type`, and the
incremental SHA-256 accumulator of `hashlib`).

Modelling choices:
* Bytes are `List Nat`; a case directory is an association list from
  stored filename to file bytes, in `os.listdir` enumeration order; the
  upload root is an association list from case id to case directory
  (a directory is present in the list iff it exists on disk).  Names are
  unique within a directory, as on a real filesystem, so directory
  updates touch the first (only) entry with the given name.
* `uuid.uuid4()` and the behaviour of `file.save` are inputs (an `Env`
  record): the uuid is random and `file.save` touches the real
  filesystem, so both are resolved outside the function.  A failing
  save also records what it left at the destination — nothing, or a
  partially written file — because werkzeug's `FileStorage.save` opens
  the destination and streams into it, and the code performs no cleanup
  on that error path.
* The SHA-256 accumulator is any structure with an initial state, an
  `update` absorbing a byte chunk, and a digest rendering, such that
  absorbing two chunks in sequence equals absorbing their concatenation
  and absorbing the empty chunk is a no-op — the algebraic laws of
  `hashlib.sha256`'s streaming interface.
* A Python expression that raises an uncaught exception is modelled by
  `Option.none`; `save_uploaded_file` therefore returns
  `Option (IngestResult × FS)`.
-/

set_option synthInstance.maxSize 512

/-- File bytes. -/
abbrev Bytes := List Nat

/-- A case directory: stored filename ↦ its bytes, in listdir order. -/
abbrev CaseDir := List (String × Bytes)

/-- The upload root: case id ↦ case directory, for the directories that exist. -/
abbrev FS := List (String × CaseDir)

/-- The value bound to key `k`, as Python `dict` / directory lookup
(keys are unique in every list this development builds). -/
def lookupKey : List (String × α) → String → Option α
  | [], _ => none
  | (a, v) :: t, k => if a = k then some v else lookupKey t k

/-- First entry satisfying `p` (the `for filename in os.listdir(...)` scan). -/
def findEntry (p : String × Bytes → Bool) : CaseDir → Option (String × Bytes)
  | [] => none
  | x :: t => if p x then some x else findEntry p t

/-- Characters after the last dot of `s`, or `none` when `s` has no dot.
This is Python `s.rsplit(".", 1)[1]` (with `none` marking the `IndexError`
case where the split yields a single component). -/
def afterLastDot : List Char → Option (List Char)
  | [] => none
  | c :: cs =>
    match afterLastDot cs with
    | some r => some r
    | none => if c = '.' then some cs else none

/-- `ALLOWED_EXTENSIONS` of file_handler.py: extension ↦ default MIME type,
in the dict's insertion order. -/
def ALLOWED_EXTENSIONS : List (String × String) :=
  [("pdf", "application/pdf"),
   ("doc", "application/msword"),
   ("docx", "application/vnd.openxmlformats-officedocument.wordprocessingml.document"),
   ("jpg", "image/jpeg"),
   ("jpeg", "image/jpeg"),
   ("png", "image/png"),
   ("txt", "text/plain")]

/-- The keys of `ALLOWED_EXTENSIONS`. -/
def allowedKeys : List String := ALLOWED_EXTENSIONS.map Prod.fst

/-- Lowercase a character sequence (Python `str.lower` on ASCII data). -/
def lowerChars (s : List Char) : List Char := s.map Char.toLower

/-- `allowed_file` of file_handler.py:
`'.' in filename and filename.rsplit('.', 1)[1].lower() in ALLOWED_EXTENSIONS`. -/
def allowed_file (filename : String) : Bool :=
  match afterLastDot filename.data with
  | none => false
  | some e => allowedKeys.contains (String.mk (lowerChars e))

/- ### Filesystem primitives -/

/-- `MAX_FILE_SIZE = 50 * 1024 * 1024` of file_handler.py. -/
def MAX_FILE_SIZE : Nat := 50 * 1024 * 1024

/-- Write bytes `v` under name `k` in a directory: replace the entry with
that name, or append a fresh one (what persisting to a path does on disk). -/
def writeFile : CaseDir → String → Bytes → CaseDir
  | [], k, v => [(k, v)]
  | (a, w) :: t, k, v => if a = k then (k, v) :: t else (a, w) :: writeFile t k v

/-- `os.remove`: drop the entry named `k` from a directory. -/
def removeFile (d : CaseDir) (k : String) : CaseDir :=
  d.filter (fun p => p.1 ≠ k)

/-- `os.makedirs(..., exist_ok=True)`: add an empty case directory if absent. -/
def ensureDir (fs : FS) (c : String) : FS :=
  if (lookupKey fs c).isSome then fs else fs ++ [(c, [])]

/-- Write file `k ↦ v` inside case directory `c`. -/
def writeIn : FS → String → String → Bytes → FS
  | [], _, _, _ => []
  | (a, d) :: t, c, k, v =>
    if a = c then (a, writeFile d k v) :: t else (a, d) :: writeIn t c k v

/-- Remove file `k` from case directory `c`. -/
def removeIn : FS → String → String → FS
  | [], _, _ => []
  | (a, d) :: t, c, k =>
    if a = c then (a, removeFile d k) :: t else (a, d) :: removeIn t c k

/- ### Model of werkzeug's secure_filename (POSIX) -/

/-- Whitespace for Python `str.split()` (ASCII range). -/
def isPySpace (c : Char) : Bool :=
  c = ' ' || c = '\t' || c = '\n' || c = '\r' || c.toNat = 11 || c.toNat = 12

/-- Split into maximal non-whitespace words, dropping empty pieces —
Python `str.split()` with no argument.  Fuel-driven so the kernel can
evaluate it; fuel `s.length` always suffices. -/
def wordsByAux : Nat → List Char → List (List Char)
  | _, [] => []
  | 0, _ :: _ => []
  | f + 1, c :: cs =>
    match (c :: cs).dropWhile isPySpace with
    | [] => []
    | d :: ds =>
      ((d :: ds).takeWhile (fun x => !(isPySpace x))) ::
        wordsByAux f ((d :: ds).dropWhile (fun x => !(isPySpace x)))

/-- Python `str.split()`. -/
def pySplit (s : List Char) : List (List Char) := wordsByAux (s.length + 1) s

/-- Characters kept by werkzeug's `_filename_ascii_strip_re` (its complement). -/
def keepChar (c : Char) : Bool :=
  c.isAlphanum || c = '_' || c = '.' || c = '-'

/-- Python `str.strip("._")` on a character list. -/
def stripDotUnderscore (s : List Char) : List Char :=
  (((s.dropWhile (fun c => c = '.' || c = '_')).reverse.dropWhile
      (fun c => c = '.' || c = '_')).reverse)

/-- Modelled from the external werkzeug library (POSIX branch of
`secure_filename`): keep ASCII only (the NFKD-normalise-then-ASCII-encode
step, restricted here to dropping non-ASCII characters), turn the path
separator into a space, collapse whitespace runs to single underscores via
`"_".join(filename.split())`, drop characters outside `[A-Za-z0-9_.-]`,
and strip leading and trailing `.` and `_`. -/
def secure_filename (s : String) : String :=
  let s1 := s.data.filter (fun c => c.toNat < 128)
  let s2 := s1.map (fun c => if c = '/' then ' ' else c)
  let s3 := List.intercalate [ '_' ] (pySplit s2)
  let s4 := s3.filter keepChar
  String.mk (stripDotUnderscore s4)

/- ### Model of hashlib's streaming SHA-256 -/

/-- The algebra of `hashlib.sha256`'s streaming interface: an initial
state, an `update` absorbing a chunk of bytes, and a `hexdigest`
rendering.  Absorbing chunks in sequence is absorbing their
concatenation, and absorbing nothing changes nothing — the two laws the
incremental interface guarantees.  The digest function itself stays
abstract: every theorem below holds for any such accumulator. -/
structure HashModel where
  State : Type
  start : State
  update : State → Bytes → State
  hexdigest : State → String
  update_append : ∀ s a b, update (update s a) b = update s (a ++ b)
  update_nil : ∀ s, update s [] = s

/-- A concrete accumulator satisfying the laws (used to instantiate
theorems on concrete inputs): the state is the byte sequence absorbed so
far. -/
def listHash : HashModel where
  State := Bytes
  start := []
  update := fun s b => s ++ b
  hexdigest := fun s => String.intercalate " " (s.map (fun n => Nat.repr n))
  update_append := by intro s a b; simp
  update_nil := by intro s; simp

/-- Split into chunks of `n` bytes, fuel-driven (fuel `bs.length`
suffices when `0 < n`): the read pattern of
`iter(lambda: f.read(4096), b"")`. -/
def chunksAux (n : Nat) : Nat → Bytes → List Bytes
  | _, [] => []
  | 0, _ :: _ => []
  | f + 1, b :: t => ((b :: t).take n) :: chunksAux n f ((b :: t).drop n)

/-- Split a byte sequence into 4096-byte chunks. -/
def chunks (n : Nat) (bs : Bytes) : List Bytes := chunksAux n bs.length bs

/-- `get_file_hash` of file_handler.py, applied to the bytes stored at the
path it is given: feed the file to the accumulator in 4096-byte blocks
and render the digest. -/
def get_file_hash (H : HashModel) (content : Bytes) : String :=
  H.hexdigest ((chunks 4096 content).foldl H.update H.start)

/-- An independently computed digest of the same bytes: absorb the whole
content in one step. -/
def fullDigest (H : HashModel) (content : Bytes) : String :=
  H.hexdigest (H.update H.start content)

/- ### Model of mimetypes.guess_type -/

/-- Modelled from the external `mimetypes` standard-library module,
restricted to the extension table entries this application can reach:
`guess_type` resolves a filename by its extension, case-insensitively.
(The dotfile special case of `posixpath.splitext` is unreachable here
because sanitised names never start with a dot.) -/
def mimetypes_guess_type (name : String) : Option String :=
  (afterLastDot name.data).bind
    (fun e => lookupKey ALLOWED_EXTENSIONS (String.mk (lowerChars e)))

/-- `mimetypes.guess_type(original_filename)[0] or ALLOWED_EXTENSIONS.get(file_ext)`. -/
def resolveMime (original_filename : String) (file_ext : String) : Option String :=
  match mimetypes_guess_type original_filename with
  | some m => some m
  | none => lookupKey ALLOWED_EXTENSIONS file_ext

/- ### The ingestion service -/

/-- The uploaded file object: its claimed filename and the bytes
`file.save` would persist. -/
structure FileStorage where
  filename : String
  content : Bytes
deriving DecidableEq

/-- Per-call environment: the value `uuid.uuid4()` returns (rendered by
`str`), and the behaviour of `file.save` — `none` is a successful save
writing the full content; `some (msg, written)` is an exception whose
`str(e)` is `msg`, with `written` what the interrupted save left at the
destination: `none` when the failure preceded creating the file, or
`some bs` when a (typically partial) file with bytes `bs` remains.
werkzeug's `FileStorage.save` opens the destination and streams into it,
so an I/O error mid-copy leaves such a partial file behind. -/
structure Env where
  uid : String
  saveError : Option (String × Option Bytes)
deriving DecidableEq

/-- The metadata dict a successful upload returns.  `uploaded_at`
(wall-clock time) and `file_size_mb` (float rounding of `file_size`, a
pure display duplicate) are outside the embedding. -/
structure Metadata where
  document_id : String
  original_filename : String
  stored_filename : String
  file_path : String × String
  file_size : Nat
  file_hash : String
  file_type : String
  mime_type : Option String
  case_id : String
  uploaded_by : String
  ocr_status : String
  tags : List String
  version : Nat
deriving DecidableEq

/-- Result dict of `save_uploaded_file`: `success: True` with metadata,
or `success: False` with an error message. -/
inductive IngestResult where
  | success (m : Metadata)
  | failure (error : String)
deriving DecidableEq

/-- The `UnsupportedType` message:
`f'File type not allowed. Allowed types: {", ".join(ALLOWED_EXTENSIONS.keys())}'`. -/
def unsupportedTypeMsg : String :=
  "File type not allowed. Allowed types: " ++ String.intercalate ", " allowedKeys

/-- Python float rendering of `a / b` in the exact-division case (the only
case reached: `MAX_FILE_SIZE / (1024*1024)` is exactly `50.0`). -/
def pyFloatDivStr (a b : Nat) : String :=
  if a % b = 0 then Nat.repr (a / b) ++ ".0" else Nat.repr a ++ "/" ++ Nat.repr b

/-- The `FileTooLarge` message:
`f'File too large. Maximum size: {MAX_FILE_SIZE / (1024*1024)}MB'`. -/
def fileTooLargeMsg : String :=
  "File too large. Maximum size: " ++ pyFloatDivStr MAX_FILE_SIZE (1024 * 1024) ++ "MB"

/-- The upload root after a failed `file.save` into directory `c` under
name `stored`: the interrupted save leaves either nothing (failure
before the destination was created) or the partial file it had written.
The code removes nothing on this path — its only `os.remove` sits in the
size-check branch, which the early return never reaches. -/
def saveFailState (fs1 : FS) (c stored : String) : Option Bytes → FS
  | none => fs1
  | some bs => writeIn fs1 c stored bs

/-- `save_uploaded_file` of file_handler.py as a state transformer over the
upload root.  The outer `Option` is Python exception behaviour: `none`
marks an uncaught exception escaping the function (the `IndexError` of
`original_filename.rsplit('.', 1)[1]` when the sanitised name has no
dot).  Paths are case-relative: the pair `(case_id, stored_filename)`
stands for `os.path.join(UPLOAD_FOLDER, case_id, stored_filename)`. -/
def save_uploaded_file (H : HashModel) (env : Env) (fs : FS)
    (file : Option FileStorage) (case_id : String) (uploaded_by : String) :
    Option (IngestResult × FS) :=
  match file with
  | none => some (IngestResult.failure "No file provided", fs)
  | some f =>
    if allowed_file f.filename then
      let original_filename := secure_filename f.filename
      match afterLastDot original_filename.data with
      | none => none
      | some e =>
        let file_ext := String.mk (lowerChars e)
        let stored_filename := env.uid ++ "." ++ file_ext
        let fs1 := ensureDir fs case_id
        match env.saveError with
        | some err =>
          some (IngestResult.failure ("Failed to save file: " ++ err.1),
            saveFailState fs1 case_id stored_filename err.2)
        | none =>
          let fs2 := writeIn fs1 case_id stored_filename f.content
          let file_size := f.content.length
          let file_hash := get_file_hash H f.content
          if file_size > MAX_FILE_SIZE then
            some (IngestResult.failure fileTooLargeMsg, removeIn fs2 case_id stored_filename)
          else
            some (IngestResult.success
              { document_id := env.uid
                original_filename := original_filename
                stored_filename := stored_filename
                file_path := (case_id, stored_filename)
                file_size := file_size
                file_hash := file_hash
                file_type := file_ext
                mime_type := resolveMime original_filename file_ext
                case_id := case_id
                uploaded_by := uploaded_by
                ocr_status := "pending"
                tags := []
                version := 1 }, fs2)
    else
      some (IngestResult.failure unsupportedTypeMsg, fs)

/-- `get_file_path` of file_handler.py: scan the case directory for the
first stored filename that starts with `document_id`; `none` when the
directory does not exist or nothing matches. -/
def get_file_path (fs : FS) (document_id : String) (case_id : String) :
    Option (String × String) :=
  match lookupKey fs case_id with
  | none => none
  | some dir =>
    match findEntry (fun p => List.isPrefixOf document_id.data p.1.data) dir with
    | none => none
    | some p => some (case_id, p.1)

/-- Result dict of `delete_file`. -/
inductive DeleteResult where
  | ok (message : String)
  | err (error : String)
deriving DecidableEq

/-- `delete_file` of file_handler.py: resolve via `get_file_path`
(whose hit, in this model, always exists on disk — the extra
`os.path.exists` re-check in the source is subsumed), then `os.remove`;
`removeError = some msg` is an `os.remove` exception with `str(e) = msg`. -/
def delete_file (removeError : Option String) (fs : FS)
    (document_id : String) (case_id : String) : DeleteResult × FS :=
  match get_file_path fs document_id case_id with
  | none => (DeleteResult.err "File not found", fs)
  | some p =>
    match removeError with
    | some msg => (DeleteResult.err ("Failed to delete file: " ++ msg), fs)
    | none => (DeleteResult.ok "File deleted", removeIn fs p.1 p.2)

/- ### Characterisation of `afterLastDot` -/

/-- `afterLastDot` misses exactly the dot-free strings. -/
theorem afterLastDot_eq_none {s : List Char} :
    afterLastDot s = none ↔ '.' ∉ s := by
  induction s with
  | nil => simp [afterLastDot]
  | cons c cs ih =>
    simp only [afterLastDot, List.mem_cons]
    cases h : afterLastDot cs with
    | some r =>
      have hmem : '.' ∈ cs := by
        by_contra hn
        rw [ih.mpr hn] at h
        exact Option.noConfusion h
      constructor
      · intro hc; exact Option.noConfusion hc
      · intro hc; exact absurd (Or.inr hmem) hc
    | none =>
      have hcs : '.' ∉ cs := ih.mp h
      by_cases hc : c = '.'
      · simp [hc]
      · simp [hc, hcs, Ne.symm hc]

/-- `afterLastDot s = some e` exactly when `e` is the dot-free tail of `s`
after a dot: the "extension after the last dot". -/
theorem afterLastDot_eq_some {s e : List Char} :
    afterLastDot s = some e ↔ ∃ t, s = t ++ '.' :: e ∧ '.' ∉ e := by
  induction s generalizing e with
  | nil =>
    simp only [afterLastDot, iff_iff_implies_and_implies]
    constructor
    · intro hf; exact Option.noConfusion hf
    · intro ⟨t, ht, _⟩
      exact absurd ht.symm (by simp)
  | cons c cs ih =>
    simp only [afterLastDot]
    cases h : afterLastDot cs with
    | some r =>
      obtain ⟨t0, ht0, hnd0⟩ := ih.mp h
      constructor
      · intro he
        injection he with he
        subst he
        exact ⟨c :: t0, by simp [ht0], hnd0⟩
      · intro ⟨t, ht, hnd⟩
        cases t with
        | nil =>
          exfalso
          simp only [List.nil_append, List.cons.injEq] at ht
          have hdot : '.' ∈ cs := by rw [ht0]; simp
          rw [ht.2] at hdot
          exact hnd hdot
        | cons a t1 =>
          simp only [List.cons_append, List.cons.injEq] at ht
          have he2 : afterLastDot cs = some e := ih.mpr ⟨t1, ht.2, hnd⟩
          rw [h] at he2
          exact he2
    | none =>
      have hcs : '.' ∉ cs := afterLastDot_eq_none.mp h
      by_cases hc : c = '.'
      · subst hc
        rw [if_pos rfl]
        constructor
        · intro he
          injection he with he
          subst he
          exact ⟨[], rfl, hcs⟩
        · intro ⟨t, ht, hnd⟩
          cases t with
          | nil =>
            simp only [List.nil_append, List.cons.injEq] at ht
            rw [ht.2]
          | cons a t1 =>
            exfalso
            simp only [List.cons_append, List.cons.injEq] at ht
            exact hcs (by rw [ht.2]; simp)
      · rw [if_neg hc]
        constructor
        · intro hf; exact Option.noConfusion hf
        · intro ⟨t, ht, hnd⟩
          exfalso
          cases t with
          | nil =>
            simp only [List.nil_append, List.cons.injEq] at ht
            exact hc ht.1
          | cons a t1 =>
            simp only [List.cons_append, List.cons.injEq] at ht
            exact hcs (by rw [ht.2]; simp)

/-- C2. `validate` (= `allowed_file`) accepts exactly the filenames that
split as `stem ++ "." ++ ext` where `ext` is dot-free and its lowercase
form is one of pdf, doc, docx, jpg, jpeg, png, txt; every filename with
no extension or a disallowed extension is rejected. -/
theorem allowed_file_iff (filename : String) :
    allowed_file filename = true ↔
      ∃ stem ext, filename.data = stem ++ '.' :: ext ∧ '.' ∉ ext ∧
        String.mk (lowerChars ext) ∈
          ["pdf", "doc", "docx", "jpg", "jpeg", "png", "txt"] := by
  unfold allowed_file
  cases h : afterLastDot filename.data with
  | none =>
    simp only [Bool.false_eq_true, false_iff]
    intro ⟨stem, ext, hsplit, hnd, _⟩
    have : afterLastDot filename.data = some ext := afterLastDot_eq_some.mpr ⟨stem, hsplit, hnd⟩
    rw [h] at this
    exact Option.noConfusion this
  | some e =>
    obtain ⟨t, ht, hnd⟩ := afterLastDot_eq_some.mp h
    constructor
    · intro hc
      refine ⟨t, e, ht, hnd, ?_⟩
      have : String.mk (lowerChars e) ∈ allowedKeys := by
        simpa [List.contains_iff_exists_mem_beq] using hc
      simpa [allowedKeys, ALLOWED_EXTENSIONS] using this
    · intro ⟨stem, ext, hsplit, hnd2, hmem⟩
      have he : afterLastDot filename.data = some ext :=
        afterLastDot_eq_some.mpr ⟨stem, hsplit, hnd2⟩
      rw [h] at he
      have hee : ext = e := by injection he with h1; exact h1.symm
      subst hee
      have : String.mk (lowerChars ext) ∈ allowedKeys := by
        simpa [allowedKeys, ALLOWED_EXTENSIONS] using hmem
      simpa [List.contains_iff_exists_mem_beq] using this

/- ### Association-list toolkit -/

theorem lookupKey_append (l1 l2 : List (String × α)) (k : String) :
    lookupKey (l1 ++ l2) k =
      match lookupKey l1 k with
      | some v => some v
      | none => lookupKey l2 k := by
  induction l1 with
  | nil => rfl
  | cons a t ih =>
    obtain ⟨x, v⟩ := a
    show lookupKey ((x, v) :: (t ++ l2)) k = _
    by_cases hx : x = k
    · simp only [lookupKey, if_pos hx]
    · simp only [lookupKey, if_neg hx, ih]

theorem lookupKey_eq_none_iff (d : List (String × α)) (k : String) :
    lookupKey d k = none ↔ ∀ q ∈ d, q.1 ≠ k := by
  induction d with
  | nil => simp [lookupKey]
  | cons a t ih =>
    obtain ⟨x, v⟩ := a
    by_cases hx : x = k
    · subst hx
      constructor
      · intro h
        rw [lookupKey.eq_2, if_pos rfl] at h
        exact Option.noConfusion h
      · intro h
        exact absurd rfl (h (x, v) (List.mem_cons_self _ _))
    · simp [lookupKey, hx, ih]

theorem lookupKey_some_mem {d : List (String × α)} {k : String} {v : α}
    (h : lookupKey d k = some v) : (k, v) ∈ d := by
  induction d with
  | nil => exact Option.noConfusion h
  | cons a t ih =>
    obtain ⟨x, w⟩ := a
    by_cases hx : x = k
    · rw [lookupKey, if_pos hx] at h
      injection h with h
      subst hx; subst h
      exact List.mem_cons_self _ _
    · rw [lookupKey, if_neg hx] at h
      exact List.mem_cons_of_mem _ (ih h)

theorem lookupKey_isSome_of_mem {d : List (String × α)} {k : String} {v : α}
    (h : (k, v) ∈ d) : ∃ w, lookupKey d k = some w := by
  induction d with
  | nil => exact absurd h (List.not_mem_nil _)
  | cons a t ih =>
    obtain ⟨x, w⟩ := a
    by_cases hx : x = k
    · exact ⟨w, by rw [lookupKey, if_pos hx]⟩
    · rcases List.mem_cons.mp h with heq | hmem
      · exact absurd (congrArg Prod.fst heq).symm hx
      · obtain ⟨w2, hw2⟩ := ih hmem
        exact ⟨w2, by rw [lookupKey, if_neg hx]; exact hw2⟩

theorem findEntry_eq_none {p : String × Bytes → Bool} {l : CaseDir} :
    findEntry p l = none ↔ ∀ x ∈ l, p x = false := by
  induction l with
  | nil => simp [findEntry]
  | cons a t ih =>
    by_cases ha : p a
    · simp [findEntry, ha]
    · rw [findEntry.eq_2, if_neg ha, ih]
      constructor
      · intro h x hx
        rcases List.mem_cons.mp hx with rfl | hx2
        · exact Bool.eq_false_iff.mpr ha
        · exact h x hx2
      · intro h x hx
        exact h x (List.mem_cons_of_mem _ hx)

theorem findEntry_eq_some {p : String × Bytes → Bool} {l : CaseDir} {x : String × Bytes}
    (h : findEntry p l = some x) :
    ∃ l1 l2, l = l1 ++ x :: l2 ∧ (∀ y ∈ l1, p y = false) ∧ p x = true := by
  induction l with
  | nil => exact Option.noConfusion h
  | cons a t ih =>
    by_cases ha : p a
    · rw [findEntry, if_pos ha] at h
      injection h with h
      subst h
      exact ⟨[], t, rfl, by simp, ha⟩
    · rw [findEntry, if_neg ha] at h
      obtain ⟨l1, l2, hl, hclean, hx⟩ := ih h
      refine ⟨a :: l1, l2, by rw [hl]; rfl, ?_, hx⟩
      intro y hy
      rcases List.mem_cons.mp hy with rfl | hy2
      · exact Bool.eq_false_iff.mpr ha
      · exact hclean y hy2

theorem findEntry_isSome_of_mem {p : String × Bytes → Bool} {l : CaseDir}
    {x : String × Bytes} (hm : x ∈ l) (hp : p x = true) :
    ∃ y, findEntry p l = some y ∧ p y = true ∧ y ∈ l := by
  induction l with
  | nil => exact absurd hm (List.not_mem_nil _)
  | cons a t ih =>
    by_cases ha : p a
    · exact ⟨a, by rw [findEntry, if_pos ha], ha, List.mem_cons_self _ _⟩
    · rcases List.mem_cons.mp hm with rfl | hm2
      · exact absurd hp (by simp [ha])
      · obtain ⟨y, hy, hpy, hmy⟩ := ih hm2
        exact ⟨y, by rw [findEntry, if_neg ha]; exact hy, hpy, List.mem_cons_of_mem _ hmy⟩

/- ### Directory-update lemmas -/

theorem lookupKey_writeFile_self (d : CaseDir) (k : String) (v : Bytes) :
    lookupKey (writeFile d k v) k = some v := by
  induction d with
  | nil => simp [writeFile, lookupKey]
  | cons a t ih =>
    obtain ⟨x, w⟩ := a
    by_cases hx : x = k
    · rw [writeFile, if_pos hx, lookupKey, if_pos rfl]
    · rw [writeFile, if_neg hx, lookupKey, if_neg hx]
      exact ih

theorem lookupKey_writeFile_ne (d : CaseDir) (k k2 : String) (v : Bytes)
    (hne : k2 ≠ k) : lookupKey (writeFile d k v) k2 = lookupKey d k2 := by
  induction d with
  | nil =>
    rw [writeFile, lookupKey.eq_2, if_neg (fun he => hne he.symm)]
  | cons a t ih =>
    obtain ⟨x, w⟩ := a
    by_cases hx : x = k
    · subst hx
      rw [writeFile, if_pos rfl, lookupKey, if_neg (fun he => hne he.symm),
        lookupKey, if_neg (fun he => hne he.symm)]
    · rw [writeFile, if_neg hx]
      by_cases hx2 : x = k2
      · rw [lookupKey, if_pos hx2, lookupKey, if_pos hx2]
      · rw [lookupKey, if_neg hx2, lookupKey, if_neg hx2]
        exact ih

theorem removeFile_writeFile {d : CaseDir} {k : String} (v : Bytes)
    (h : lookupKey d k = none) : removeFile (writeFile d k v) k = d := by
  induction d with
  | nil => simp [writeFile, removeFile]
  | cons a t ih =>
    obtain ⟨x, w⟩ := a
    rw [lookupKey] at h
    by_cases hx : x = k
    · rw [if_pos hx] at h
      exact Option.noConfusion h
    · rw [if_neg hx] at h
      rw [writeFile, if_neg hx, removeFile, List.filter]
      have : (decide ((x, w).1 ≠ k)) = true := by
        simp [hx]
      rw [this]
      rw [removeFile] at ih
      rw [ih h]

theorem mem_removeFile {d : CaseDir} {k : String} {q : String × Bytes} :
    q ∈ removeFile d k ↔ q ∈ d ∧ q.1 ≠ k := by
  simp [removeFile, List.mem_filter]

theorem ensureDir_eq_self {fs : FS} {c : String} (h : (lookupKey fs c).isSome) :
    ensureDir fs c = fs := by
  rw [ensureDir, if_pos h]

theorem lookupKey_ensureDir_self (fs : FS) (c : String) :
    lookupKey (ensureDir fs c) c = some ((lookupKey fs c).getD []) := by
  by_cases h : (lookupKey fs c).isSome
  · rw [ensureDir_eq_self h]
    obtain ⟨d, hd⟩ := Option.isSome_iff_exists.mp h
    rw [hd]
    rfl
  · rw [Option.not_isSome_iff_eq_none] at h
    rw [ensureDir, if_neg (by rw [h]; simp), lookupKey_append, h]
    simp [lookupKey]

theorem lookupKey_writeIn (fs : FS) (c k : String) (v : Bytes) :
    lookupKey (writeIn fs c k v) c = (lookupKey fs c).map (fun d => writeFile d k v) := by
  induction fs with
  | nil => rfl
  | cons a t ih =>
    obtain ⟨x, d⟩ := a
    by_cases hx : x = c
    · rw [writeIn, if_pos hx, lookupKey, if_pos hx, lookupKey, if_pos hx]
      rfl
    · rw [writeIn, if_neg hx, lookupKey, if_neg hx, lookupKey, if_neg hx]
      exact ih

theorem lookupKey_removeIn (fs : FS) (c k : String) :
    lookupKey (removeIn fs c k) c = (lookupKey fs c).map (fun d => removeFile d k) := by
  induction fs with
  | nil => rfl
  | cons a t ih =>
    obtain ⟨x, d⟩ := a
    by_cases hx : x = c
    · rw [removeIn, if_pos hx, lookupKey, if_pos hx, lookupKey, if_pos hx]
      rfl
    · rw [removeIn, if_neg hx, lookupKey, if_neg hx, lookupKey, if_neg hx]
      exact ih

theorem removeIn_writeIn {fs : FS} {c k : String} {v : Bytes}
    (hfresh : ∀ d, lookupKey fs c = some d → lookupKey d k = none) :
    removeIn (writeIn fs c k v) c k = fs := by
  induction fs with
  | nil => rfl
  | cons a t ih =>
    obtain ⟨x, d⟩ := a
    by_cases hx : x = c
    · rw [writeIn, if_pos hx, removeIn, if_pos hx]
      have hd : lookupKey ((x, d) :: t) c = some d := by
        rw [lookupKey, if_pos hx]
      rw [removeFile_writeFile v (hfresh d hd)]
    · rw [writeIn, if_neg hx, removeIn, if_neg hx]
      have : ∀ d2, lookupKey t c = some d2 → lookupKey d2 k = none := by
        intro d2 hd2
        exact hfresh d2 (by rw [lookupKey, if_neg hx]; exact hd2)
      rw [ih this]

/- ### Hash-chunking lemmas -/

theorem foldl_chunksAux (H : HashModel) {n : Nat} (hn : 0 < n) :
    ∀ fuel bs s, bs.length ≤ fuel →
      (chunksAux n fuel bs).foldl H.update s = H.update s bs := by
  intro fuel
  induction fuel with
  | zero =>
    intro bs s hlen
    cases bs with
    | nil => exact (H.update_nil s).symm
    | cons b t => exact absurd hlen (by simp)
  | succ f ih =>
    intro bs s hlen
    cases bs with
    | nil => exact (H.update_nil s).symm
    | cons b t =>
      rw [chunksAux, List.foldl_cons]
      have hdrop : ((b :: t).drop n).length ≤ f := by
        rw [List.length_drop]
        omega
      rw [ih _ _ hdrop, H.update_append, List.take_append_drop]

theorem get_file_hash_eq_fullDigest (H : HashModel) (content : Bytes) :
    get_file_hash H content = fullDigest H content := by
  unfold get_file_hash fullDigest chunks
  rw [foldl_chunksAux H (by omega) content.length content H.start (Nat.le_refl _)]

/- ### String-prefix lemmas -/

theorem isPrefixOf_append_self (l t : List Char) :
    List.isPrefixOf l (l ++ t) = true := by
  induction l with
  | nil => simp [List.isPrefixOf]
  | cons a l2 ih => simp [List.isPrefixOf, ih]

theorem dot_data : (".").data = ['.'] := by decide

theorem dot_append_data (u x : String) :
    (u ++ "." ++ x).data = u.data ++ '.' :: x.data := by
  rw [String.data_append, String.data_append, dot_data]
  simp

theorem uid_of_stored_eq {u1 u2 x : String}
    (h : u1 ++ "." ++ x = u2 ++ "." ++ x) : u1 = u2 := by
  have hd : u1.data ++ '.' :: x.data = u2.data ++ '.' :: x.data := by
    rw [← dot_append_data, ← dot_append_data, h]
  have hlen : u1.data.length = u2.data.length := by
    have h2 := congrArg List.length hd
    rw [List.length_append, List.length_append] at h2
    omega
  exact String.ext (List.append_inj_left hd hlen)

/- ### Branch computations of save_uploaded_file -/

theorem save_run_noFile (H : HashModel) (env : Env) (fs : FS) (c u : String) :
    save_uploaded_file H env fs none c u =
      some (IngestResult.failure "No file provided", fs) := rfl

theorem save_run_unsupported (H : HashModel) (env : Env) (fs : FS) {f : FileStorage}
    (c u : String) (ha : allowed_file f.filename = false) :
    save_uploaded_file H env fs (some f) c u =
      some (IngestResult.failure unsupportedTypeMsg, fs) := by
  simp [save_uploaded_file, ha]

theorem save_run_crash (H : HashModel) (env : Env) (fs : FS) {f : FileStorage}
    (c u : String) (ha : allowed_file f.filename = true)
    (he : afterLastDot (secure_filename f.filename).data = none) :
    save_uploaded_file H env fs (some f) c u = none := by
  simp [save_uploaded_file, ha, he]

theorem save_run_saveError (H : HashModel) (env : Env) (fs : FS) {f : FileStorage}
    (c u : String) {e : List Char} {msg : String} {written : Option Bytes}
    (ha : allowed_file f.filename = true)
    (he : afterLastDot (secure_filename f.filename).data = some e)
    (hs : env.saveError = some (msg, written)) :
    save_uploaded_file H env fs (some f) c u =
      some (IngestResult.failure ("Failed to save file: " ++ msg),
        saveFailState (ensureDir fs c) c
          (env.uid ++ "." ++ String.mk (lowerChars e)) written) := by
  simp [save_uploaded_file, ha, he, hs]

theorem save_run_tooLarge (H : HashModel) (env : Env) (fs : FS) {f : FileStorage}
    (c u : String) {e : List Char}
    (ha : allowed_file f.filename = true)
    (he : afterLastDot (secure_filename f.filename).data = some e)
    (hs : env.saveError = none)
    (hsz : f.content.length > MAX_FILE_SIZE) :
    save_uploaded_file H env fs (some f) c u =
      some (IngestResult.failure fileTooLargeMsg,
        removeIn
          (writeIn (ensureDir fs c) c (env.uid ++ "." ++ String.mk (lowerChars e)) f.content)
          c (env.uid ++ "." ++ String.mk (lowerChars e))) := by
  simp [save_uploaded_file, ha, he, hs, hsz]

theorem save_run_success (H : HashModel) (env : Env) (fs : FS) {f : FileStorage}
    (c u : String) {e : List Char}
    (ha : allowed_file f.filename = true)
    (he : afterLastDot (secure_filename f.filename).data = some e)
    (hs : env.saveError = none)
    (hsz : ¬ f.content.length > MAX_FILE_SIZE) :
    save_uploaded_file H env fs (some f) c u =
      some (IngestResult.success
        { document_id := env.uid
          original_filename := secure_filename f.filename
          stored_filename := env.uid ++ "." ++ String.mk (lowerChars e)
          file_path := (c, env.uid ++ "." ++ String.mk (lowerChars e))
          file_size := f.content.length
          file_hash := get_file_hash H f.content
          file_type := String.mk (lowerChars e)
          mime_type := resolveMime (secure_filename f.filename) (String.mk (lowerChars e))
          case_id := c
          uploaded_by := u
          ocr_status := "pending"
          tags := []
          version := 1 },
        writeIn (ensureDir fs c) c (env.uid ++ "." ++ String.mk (lowerChars e)) f.content) := by
  simp [save_uploaded_file, ha, he, hs, hsz]

/-- Inversion: everything a successful run determines. -/
theorem save_success_inv {H : HashModel} {env : Env} {fs : FS} {f : FileStorage}
    {c u : String} {m : Metadata} {fs2 : FS}
    (h : save_uploaded_file H env fs (some f) c u = some (IngestResult.success m, fs2)) :
    ∃ e, allowed_file f.filename = true ∧
      afterLastDot (secure_filename f.filename).data = some e ∧
      env.saveError = none ∧
      f.content.length ≤ MAX_FILE_SIZE ∧
      m = { document_id := env.uid
            original_filename := secure_filename f.filename
            stored_filename := env.uid ++ "." ++ String.mk (lowerChars e)
            file_path := (c, env.uid ++ "." ++ String.mk (lowerChars e))
            file_size := f.content.length
            file_hash := get_file_hash H f.content
            file_type := String.mk (lowerChars e)
            mime_type := resolveMime (secure_filename f.filename) (String.mk (lowerChars e))
            case_id := c
            uploaded_by := u
            ocr_status := "pending"
            tags := []
            version := 1 } ∧
      fs2 = writeIn (ensureDir fs c) c (env.uid ++ "." ++ String.mk (lowerChars e)) f.content := by
  cases hab : allowed_file f.filename with
  | false =>
    rw [save_run_unsupported H env fs c u hab] at h
    simp at h
  | true =>
    cases he : afterLastDot (secure_filename f.filename).data with
    | none =>
      rw [save_run_crash H env fs c u hab he] at h
      exact Option.noConfusion h
    | some e =>
      cases hs : env.saveError with
      | some err =>
        obtain ⟨msg, written⟩ := err
        rw [save_run_saveError H env fs c u hab he hs] at h
        simp at h
      | none =>
        by_cases hsz : f.content.length > MAX_FILE_SIZE
        · rw [save_run_tooLarge H env fs c u hab he hs hsz] at h
          simp at h
        · rw [save_run_success H env fs c u hab he hs hsz] at h
          simp only [Option.some.injEq, Prod.mk.injEq, IngestResult.success.injEq] at h
          exact ⟨e, rfl, rfl, rfl, Nat.not_lt.mp hsz, h.1.symm, h.2.symm⟩

/- ### Claim theorems -/

/-- C1. Whenever `save_uploaded_file` succeeds, the returned metadata's
`file_size` equals the byte length of the input and its `file_hash`
equals an independently computed digest of those same bytes (one
absorption of the whole content), for every accumulator satisfying the
streaming laws: the hash is a function of the file bytes alone. -/
theorem C1_ingest_size_and_hash (H : HashModel) (env : Env) (fs : FS)
    (f : FileStorage) (c u : String) (m : Metadata) (fs2 : FS)
    (h : save_uploaded_file H env fs (some f) c u = some (IngestResult.success m, fs2)) :
    m.file_size = f.content.length ∧ m.file_hash = fullDigest H f.content := by
  obtain ⟨e, _, _, _, _, hm, _⟩ := save_success_inv h
  subst hm
  exact ⟨rfl, get_file_hash_eq_fullDigest H f.content⟩

theorem C1_witness :
    save_uploaded_file listHash { uid := "u1", saveError := none } []
        (some { filename := "notes.txt", content := [104, 105] }) "SAML-00001" "x"
      = some (IngestResult.success
          { document_id := "u1", original_filename := "notes.txt", stored_filename := "u1.txt",
            file_path := ("SAML-00001", "u1.txt"), file_size := 2, file_hash := "104 105",
            file_type := "txt", mime_type := some "text/plain", case_id := "SAML-00001",
            uploaded_by := "x", ocr_status := "pending", tags := [], version := 1 },
          [("SAML-00001", [("u1.txt", [104, 105])])]) ∧
      (Metadata.file_size
          { document_id := "u1", original_filename := "notes.txt", stored_filename := "u1.txt",
            file_path := ("SAML-00001", "u1.txt"), file_size := 2, file_hash := "104 105",
            file_type := "txt", mime_type := some "text/plain", case_id := "SAML-00001",
            uploaded_by := "x", ocr_status := "pending", tags := [], version := 1 } = 2 ∧
        Metadata.file_hash
          { document_id := "u1", original_filename := "notes.txt", stored_filename := "u1.txt",
            file_path := ("SAML-00001", "u1.txt"), file_size := 2, file_hash := "104 105",
            file_type := "txt", mime_type := some "text/plain", case_id := "SAML-00001",
            uploaded_by := "x", ocr_status := "pending", tags := [], version := 1 }
          = fullDigest listHash [104, 105]) :=
  ⟨by decide,
   C1_ingest_size_and_hash listHash { uid := "u1", saveError := none } []
     { filename := "notes.txt", content := [104, 105] } "SAML-00001" "x"
     { document_id := "u1", original_filename := "notes.txt", stored_filename := "u1.txt",
       file_path := ("SAML-00001", "u1.txt"), file_size := 2, file_hash := "104 105",
       file_type := "txt", mime_type := some "text/plain", case_id := "SAML-00001",
       uploaded_by := "x", ocr_status := "pending", tags := [], version := 1 }
     [("SAML-00001", [("u1.txt", [104, 105])])] (by decide)⟩

/-- C3. When the persisted size exceeds `MAX_FILE_SIZE` (50 MiB =
52,428,800 bytes) and the write itself succeeded, ingest removes the
just-written file — the upload root afterwards is exactly `ensureDir fs c`,
with no entry for the stored filename — and fails with the `FileTooLarge`
message stating the 50.0 MB limit.  The freshness hypothesis says the
generated uuid names no pre-existing file, which is what `uuid.uuid4`
provides. -/
theorem C3_too_large (H : HashModel) (env : Env) (fs : FS) (f : FileStorage)
    (c u : String) (e : List Char)
    (ha : allowed_file f.filename = true)
    (he : afterLastDot (secure_filename f.filename).data = some e)
    (hs : env.saveError = none)
    (hsz : f.content.length > MAX_FILE_SIZE)
    (hfresh : ∀ d, lookupKey (ensureDir fs c) c = some d →
        lookupKey d (env.uid ++ "." ++ String.mk (lowerChars e)) = none) :
    save_uploaded_file H env fs (some f) c u =
      some (IngestResult.failure fileTooLargeMsg, ensureDir fs c) ∧
    fileTooLargeMsg = "File too large. Maximum size: 50.0MB" := by
  constructor
  · rw [save_run_tooLarge H env fs c u ha he hs hsz, removeIn_writeIn hfresh]
  · decide

theorem C3_witness :
    (List.replicate 52428801 0).length > MAX_FILE_SIZE ∧
    (save_uploaded_file listHash { uid := "u1", saveError := none } []
        (some { filename := "big.pdf", content := List.replicate 52428801 0 })
        "SAML-00001" "x"
      = some (IngestResult.failure fileTooLargeMsg, ensureDir [] "SAML-00001") ∧
      fileTooLargeMsg = "File too large. Maximum size: 50.0MB") :=
  ⟨by rw [List.length_replicate]; decide,
   C3_too_large listHash { uid := "u1", saveError := none } []
     { filename := "big.pdf", content := List.replicate 52428801 0 } "SAML-00001" "x"
     ['p', 'd', 'f'] (by decide) (by decide) rfl
     (by rw [List.length_replicate]; decide)
     (by
       intro d hd
       have hd2 : d = [] := by
         rw [show ensureDir [] "SAML-00001" = [("SAML-00001", [])] from rfl] at hd
         rw [lookupKey.eq_2, if_pos rfl] at hd
         exact (Option.some.injEq _ _ ▸ hd).symm
       rw [hd2]
       rfl)⟩

/-- C4. The claim "ingest is total" fails on the code: for the uploaded
filename ".pdf" — which `allowed_file` accepts, since its text after the
last dot is "pdf" — werkzeug's `secure_filename` strips the leading dot
and returns "pdf", so `original_filename.rsplit('.', 1)[1]` raises an
uncaught `IndexError` (modelled as `none`): the call terminates with an
unhandled exception instead of a success record or a typed error. -/
theorem C4_crash_on_dotfile :
    save_uploaded_file listHash { uid := "u1", saveError := none } []
      (some { filename := ".pdf", content := [0] }) "SAML-00001" "Chris Hallberg"
      = none := by decide

/-- C6. With no file object, ingest fails first with the `NoFile` message,
leaving the root untouched; with a file object whose name `allowed_file`
rejects, it fails with the `UnsupportedType` message, which enumerates
exactly pdf, doc, docx, jpg, jpeg, png, txt, again leaving the root
untouched. -/
theorem C6_nofile_then_unsupported (H : HashModel) (env : Env) (fs : FS) (c u : String) :
    save_uploaded_file H env fs none c u =
      some (IngestResult.failure "No file provided", fs) ∧
    ∀ f : FileStorage, allowed_file f.filename = false →
      save_uploaded_file H env fs (some f) c u =
        some (IngestResult.failure
          "File type not allowed. Allowed types: pdf, doc, docx, jpg, jpeg, png, txt", fs) := by
  refine ⟨save_run_noFile H env fs c u, ?_⟩
  intro f ha
  rw [save_run_unsupported H env fs c u ha]
  have hmsg : unsupportedTypeMsg =
      "File type not allowed. Allowed types: pdf, doc, docx, jpg, jpeg, png, txt" := by
    decide
  rw [hmsg]

theorem C6_witness :
    allowed_file "malware.exe" = false ∧
    save_uploaded_file listHash { uid := "u9", saveError := none } []
      (some { filename := "malware.exe", content := [1] }) "SAML-00001" "y" =
      some (IngestResult.failure
        "File type not allowed. Allowed types: pdf, doc, docx, jpg, jpeg, png, txt", []) :=
  ⟨by decide,
   (C6_nofile_then_unsupported listHash { uid := "u9", saveError := none } [] "SAML-00001" "y").2
     { filename := "malware.exe", content := [1] } (by decide)⟩

/-- C9: counterexample to the claim as stated.  A save of three bytes
that fails after writing one byte returns the `WriteFailure` message but
leaves the one-byte partial file `u4.txt` in the case directory, and a
later reader of that directory sees it: `get_file_path` resolves the
generated identifier to the partial file, whose content differs from the
uploaded bytes.  So "no partial file is left in a way that misleads
later readers" is false on the code. -/
theorem C9_counterexample :
    save_uploaded_file listHash
        { uid := "u4", saveError := some ("disk full", some [9]) } []
        (some { filename := "notes.txt", content := [9, 9, 9] }) "SAML-00001" "x"
      = some (IngestResult.failure "Failed to save file: disk full",
          [("SAML-00001", [("u4.txt", [9])])]) ∧
    get_file_path [("SAML-00001", [("u4.txt", [9])])] "u4" "SAML-00001"
      = some ("SAML-00001", "u4.txt") ∧
    ([9] : Bytes) ≠ [9, 9, 9] :=
  ⟨by decide, by decide, by decide⟩

/-- C9 (amended). If `file.save` raises, ingest returns the `WriteFailure`
message wrapping the underlying cause (`str(e)`), and the upload root
afterwards is the ensured case directory plus whatever the interrupted
save left at the destination — nothing, or the partial file it had
written.  That partial file is not removed: the code's only cleanup,
`os.remove`, sits in the size-check branch, which this early return
never reaches. -/
theorem C9_write_failure (H : HashModel) (env : Env) (fs : FS) (f : FileStorage)
    (c u : String) (e : List Char) (msg : String) (written : Option Bytes)
    (ha : allowed_file f.filename = true)
    (he : afterLastDot (secure_filename f.filename).data = some e)
    (hs : env.saveError = some (msg, written)) :
    save_uploaded_file H env fs (some f) c u =
      some (IngestResult.failure ("Failed to save file: " ++ msg),
        saveFailState (ensureDir fs c) c
          (env.uid ++ "." ++ String.mk (lowerChars e)) written) :=
  save_run_saveError H env fs c u ha he hs

theorem C9_witness :
    allowed_file "notes.txt" = true ∧
    save_uploaded_file listHash
      { uid := "u3", saveError := some ("disk full", some [7]) } []
      (some { filename := "notes.txt", content := [7, 8] }) "SAML-00001" "z" =
      some (IngestResult.failure ("Failed to save file: " ++ "disk full"),
        saveFailState (ensureDir [] "SAML-00001") "SAML-00001"
          ("u3" ++ "." ++ String.mk (lowerChars ['t', 'x', 't'])) (some [7])) :=
  ⟨by decide,
   C9_write_failure listHash { uid := "u3", saveError := some ("disk full", some [7]) } []
     { filename := "notes.txt", content := [7, 8] } "SAML-00001" "z"
     ['t', 'x', 't'] "disk full" (some [7]) (by decide) (by decide) rfl⟩

/-- C5. Two successive successful ingests of the same bytes under the same
case, with distinct generated identifiers (what `uuid.uuid4` provides),
store under `{identifier}.{extension}` names that differ — so the second
does not overwrite the first: afterwards the case directory holds both
stored filenames, each with the full content — while both results carry
the identical content hash. -/
theorem C5_reingest_distinct_names_same_hash (H : HashModel) (e1 e2 : Env)
    (fs fs1 fs2 : FS) (f : FileStorage) (c u : String) (m1 m2 : Metadata)
    (huid : e1.uid ≠ e2.uid)
    (h1 : save_uploaded_file H e1 fs (some f) c u = some (IngestResult.success m1, fs1))
    (h2 : save_uploaded_file H e2 fs1 (some f) c u = some (IngestResult.success m2, fs2)) :
    m1.stored_filename ≠ m2.stored_filename ∧
    m1.file_hash = m2.file_hash ∧
    ∃ dir, lookupKey fs2 c = some dir ∧
      lookupKey dir m1.stored_filename = some f.content ∧
      lookupKey dir m2.stored_filename = some f.content := by
  obtain ⟨e, ha1, he1, hs1, hl1, hm1, hfs1⟩ := save_success_inv h1
  obtain ⟨e2x, ha2, he2, hs2, hl2, hm2, hfs2⟩ := save_success_inv h2
  rw [he1] at he2
  injection he2 with hee
  subst hee
  subst hm1
  subst hm2
  subst hfs1
  subst hfs2
  have hne : e1.uid ++ "." ++ String.mk (lowerChars e) ≠
      e2.uid ++ "." ++ String.mk (lowerChars e) :=
    fun heq => huid (uid_of_stored_eq heq)
  refine ⟨hne, rfl, ?_⟩
  have h0 := lookupKey_ensureDir_self fs c
  have hw1 : lookupKey (writeIn (ensureDir fs c) c
        (e1.uid ++ "." ++ String.mk (lowerChars e)) f.content) c
      = some (writeFile ((lookupKey fs c).getD [])
          (e1.uid ++ "." ++ String.mk (lowerChars e)) f.content) := by
    rw [lookupKey_writeIn, h0]
    rfl
  have hsome1 : (lookupKey (writeIn (ensureDir fs c) c
      (e1.uid ++ "." ++ String.mk (lowerChars e)) f.content) c).isSome := by
    rw [hw1]
    rfl
  show ∃ dir,
    lookupKey (writeIn (ensureDir (writeIn (ensureDir fs c) c
        (e1.uid ++ "." ++ String.mk (lowerChars e)) f.content) c) c
      (e2.uid ++ "." ++ String.mk (lowerChars e)) f.content) c = some dir ∧
    lookupKey dir (e1.uid ++ "." ++ String.mk (lowerChars e)) = some f.content ∧
    lookupKey dir (e2.uid ++ "." ++ String.mk (lowerChars e)) = some f.content
  rw [ensureDir_eq_self hsome1]
  refine ⟨writeFile (writeFile ((lookupKey fs c).getD [])
      (e1.uid ++ "." ++ String.mk (lowerChars e)) f.content)
      (e2.uid ++ "." ++ String.mk (lowerChars e)) f.content, ?_, ?_, ?_⟩
  · rw [lookupKey_writeIn, hw1]
    rfl
  · rw [lookupKey_writeFile_ne _ _ _ _ hne]
    exact lookupKey_writeFile_self _ _ _
  · exact lookupKey_writeFile_self _ _ _

theorem C5_witness :
    ("u1" : String) ≠ "u2" ∧
    (("u1.txt" : String) ≠ "u2.txt" ∧ ("104 105" : String) = "104 105" ∧
      ∃ dir,
        lookupKey [("SAML-00001", [("u1.txt", [104, 105]), ("u2.txt", [104, 105])])]
          "SAML-00001" = some dir ∧
        lookupKey dir "u1.txt" = some [104, 105] ∧
        lookupKey dir "u2.txt" = some [104, 105]) :=
  ⟨by decide,
   C5_reingest_distinct_names_same_hash listHash
     { uid := "u1", saveError := none } { uid := "u2", saveError := none }
     [] [("SAML-00001", [("u1.txt", [104, 105])])]
     [("SAML-00001", [("u1.txt", [104, 105]), ("u2.txt", [104, 105])])]
     { filename := "notes.txt", content := [104, 105] } "SAML-00001" "x"
     { document_id := "u1", original_filename := "notes.txt", stored_filename := "u1.txt",
       file_path := ("SAML-00001", "u1.txt"), file_size := 2, file_hash := "104 105",
       file_type := "txt", mime_type := some "text/plain", case_id := "SAML-00001",
       uploaded_by := "x", ocr_status := "pending", tags := [], version := 1 }
     { document_id := "u2", original_filename := "notes.txt", stored_filename := "u2.txt",
       file_path := ("SAML-00001", "u2.txt"), file_size := 2, file_hash := "104 105",
       file_type := "txt", mime_type := some "text/plain", case_id := "SAML-00001",
       uploaded_by := "x", ocr_status := "pending", tags := [], version := 1 }
     (by decide) (by decide) (by decide)⟩

/-- C7. `get_file_path` returns `none` when the case directory does not
exist and when no stored filename starts with the document id; a hit is
the first matching entry of the directory scan, with the case id as its
directory component; and after every successful ingest, locating the
returned `document_id` yields a path that exists on disk (its directory
and filename both resolve). -/
theorem C7_locate_first_match (fs : FS) (doc c : String) :
    (lookupKey fs c = none → get_file_path fs doc c = none) ∧
    (∀ dir, lookupKey fs c = some dir →
      (∀ q ∈ dir, List.isPrefixOf doc.data q.1.data = false) →
      get_file_path fs doc c = none) ∧
    (∀ r, get_file_path fs doc c = some r →
      r.1 = c ∧ List.isPrefixOf doc.data r.2.data = true ∧
      ∃ dir d1 v d2, lookupKey fs c = some dir ∧ dir = d1 ++ (r.2, v) :: d2 ∧
        ∀ q ∈ d1, List.isPrefixOf doc.data q.1.data = false) ∧
    (∀ (H : HashModel) (env : Env) (f : FileStorage) (u : String) (m : Metadata) (fs2 : FS),
      save_uploaded_file H env fs (some f) c u = some (IngestResult.success m, fs2) →
      ∃ r, get_file_path fs2 m.document_id c = some r ∧
        ∃ dir w, lookupKey fs2 r.1 = some dir ∧ lookupKey dir r.2 = some w) := by
  refine ⟨?_, ?_, ?_, ?_⟩
  · intro h
    simp [get_file_path, h]
  · intro dir hd hall
    simp [get_file_path, hd, findEntry_eq_none.mpr hall]
  · intro r hr
    cases hl : lookupKey fs c with
    | none =>
      have hnone : get_file_path fs doc c = none := by
        simp only [get_file_path, hl]
      rw [hnone] at hr
      exact Option.noConfusion hr
    | some dir =>
      cases hf : findEntry (fun p => List.isPrefixOf doc.data p.1.data) dir with
      | none =>
        have hnone : get_file_path fs doc c = none := by
          simp only [get_file_path, hl, hf]
        rw [hnone] at hr
        exact Option.noConfusion hr
      | some p =>
        have hsome : get_file_path fs doc c = some (c, p.1) := by
          simp only [get_file_path, hl, hf]
        rw [hsome] at hr
        have hr2 : (c, p.1) = r := Option.some.inj hr
        obtain ⟨l1, l2, hdir, hclean, hp⟩ := findEntry_eq_some hf
        obtain ⟨pn, pv⟩ := p
        subst hr2
        exact ⟨rfl, hp, dir, l1, pv, l2, rfl, hdir, hclean⟩
  · intro H env f u m fs2 h
    obtain ⟨e, ha, he, hs, hl, hm, hfs⟩ := save_success_inv h
    have hdoc : m.document_id = env.uid := by rw [hm]
    rw [hdoc]
    subst hfs
    have h0 := lookupKey_ensureDir_self fs c
    have hw : lookupKey (writeIn (ensureDir fs c) c
          (env.uid ++ "." ++ String.mk (lowerChars e)) f.content) c
        = some (writeFile ((lookupKey fs c).getD [])
            (env.uid ++ "." ++ String.mk (lowerChars e)) f.content) := by
      rw [lookupKey_writeIn, h0]
      rfl
    have hmem : (env.uid ++ "." ++ String.mk (lowerChars e), f.content) ∈
        writeFile ((lookupKey fs c).getD [])
          (env.uid ++ "." ++ String.mk (lowerChars e)) f.content :=
      lookupKey_some_mem (lookupKey_writeFile_self _ _ _)
    have hpref : List.isPrefixOf env.uid.data
        (env.uid ++ "." ++ String.mk (lowerChars e)).data = true := by
      rw [dot_append_data]
      exact isPrefixOf_append_self _ _
    obtain ⟨y, hy, hpy, hmy⟩ :=
      @findEntry_isSome_of_mem (fun p => List.isPrefixOf env.uid.data p.1.data)
        (writeFile ((lookupKey fs c).getD [])
          (env.uid ++ "." ++ String.mk (lowerChars e)) f.content)
        (env.uid ++ "." ++ String.mk (lowerChars e), f.content) hmem hpref
    refine ⟨(c, y.1), ?_, ?_⟩
    · simp only [get_file_path, hw, hy]
    · obtain ⟨yn, yv⟩ := y
      obtain ⟨w, hw2⟩ := lookupKey_isSome_of_mem hmy
      exact ⟨writeFile ((lookupKey fs c).getD [])
          (env.uid ++ "." ++ String.mk (lowerChars e)) f.content, w, hw, hw2⟩

theorem C7_witness :
    lookupKey [("SAML-00001", [("u1.txt", [104, 105])])] "SAML-00001"
      = some [("u1.txt", [104, 105])] ∧
    (∀ q ∈ [("u1.txt", ([104, 105] : Bytes))],
      List.isPrefixOf ("zz").data q.1.data = false) ∧
    get_file_path [("SAML-00001", [("u1.txt", [104, 105])])] "zz" "SAML-00001" = none :=
  ⟨by decide, by decide,
   (C7_locate_first_match [("SAML-00001", [("u1.txt", [104, 105])])] "zz" "SAML-00001").2.1
     [("u1.txt", [104, 105])] (by decide) (by decide)⟩

/-- C8. `delete_file` resolves through `get_file_path`: with no match it
fails with "File not found" and changes nothing; with a match and a
failing `os.remove` it fails with the wrapped cause and changes nothing;
with a match and a successful remove it reports success, removes the
file, and — provided every directory entry matching the document id
bears the resolved stored filename, as uuid-named stores guarantee — a
subsequent `get_file_path` for the same identifier returns `none`. -/
theorem C8_delete_then_locate_none (re : Option String) (fs : FS) (doc c : String) :
    (get_file_path fs doc c = none →
      delete_file re fs doc c = (DeleteResult.err "File not found", fs)) ∧
    (∀ p msg, get_file_path fs doc c = some p → re = some msg →
      delete_file re fs doc c = (DeleteResult.err ("Failed to delete file: " ++ msg), fs)) ∧
    (∀ p dir, get_file_path fs doc c = some p → re = none →
      lookupKey fs c = some dir →
      (∀ q ∈ dir, List.isPrefixOf doc.data q.1.data = true → q.1 = p.2) →
      delete_file re fs doc c = (DeleteResult.ok "File deleted", removeIn fs p.1 p.2) ∧
      get_file_path (removeIn fs p.1 p.2) doc c = none) := by
  refine ⟨?_, ?_, ?_⟩
  · intro h
    simp only [delete_file, h]
  · intro p msg hp hre
    simp only [delete_file, hp, hre]
  · intro p dir hp hre hdir huniq
    subst hre
    refine ⟨by simp only [delete_file, hp], ?_⟩
    have hp1 : p.1 = c := by
      simp only [get_file_path, hdir] at hp
      cases hf : findEntry (fun q => List.isPrefixOf doc.data q.1.data) dir with
      | none =>
        rw [hf] at hp
        exact Option.noConfusion hp
      | some q =>
        rw [hf] at hp
        rw [← Option.some.inj hp]
    have hrem : lookupKey (removeIn fs p.1 p.2) c = some (removeFile dir p.2) := by
      rw [hp1, lookupKey_removeIn, hdir]
      rfl
    have hall : ∀ q ∈ removeFile dir p.2,
        List.isPrefixOf doc.data q.1.data = false := by
      intro q hq
      obtain ⟨hqd, hqne⟩ := mem_removeFile.mp hq
      cases hb : List.isPrefixOf doc.data q.1.data with
      | false => rfl
      | true => exact absurd (huniq q hqd hb) hqne
    simp only [get_file_path, hrem, findEntry_eq_none.mpr hall]

theorem C8_witness :
    get_file_path [("SAML-00001", [("u1.txt", [104, 105])])] "u1" "SAML-00001"
      = some ("SAML-00001", "u1.txt") ∧
    lookupKey [("SAML-00001", [("u1.txt", [104, 105])])] "SAML-00001"
      = some [("u1.txt", [104, 105])] ∧
    (∀ q ∈ [("u1.txt", ([104, 105] : Bytes))],
      List.isPrefixOf ("u1").data q.1.data = true → q.1 = "u1.txt") ∧
    (delete_file none [("SAML-00001", [("u1.txt", [104, 105])])] "u1" "SAML-00001"
        = (DeleteResult.ok "File deleted",
          removeIn [("SAML-00001", [("u1.txt", [104, 105])])] "SAML-00001" "u1.txt") ∧
      get_file_path
        (removeIn [("SAML-00001", [("u1.txt", [104, 105])])] "SAML-00001" "u1.txt")
        "u1" "SAML-00001" = none) :=
  ⟨by decide, by decide, by decide,
   (C8_delete_then_locate_none none [("SAML-00001", [("u1.txt", [104, 105])])]
       "u1" "SAML-00001").2.2
     ("SAML-00001", "u1.txt") [("u1.txt", [104, 105])]
     (by decide) rfl (by decide) (by decide)⟩

/-- C10: counterexample to the claim as stated.  A failed save from an
empty upload root creates the case directory and leaves a partial file
inside it: the newly created directory is not empty, so "only failures
after validation can leave a newly created, *empty* case directory
behind" is false for `WriteFailure`. -/
theorem C10_counterexample :
    save_uploaded_file listHash
        { uid := "u5", saveError := some ("io error", some [1, 2]) } []
        (some { filename := "a.txt", content := [1, 2, 3, 4] }) "SAML-00003" "y"
      = some (IngestResult.failure "Failed to save file: io error",
          [("SAML-00003", [("u5.txt", [1, 2])])]) ∧
    [("u5.txt", ([1, 2] : Bytes))] ≠ [] :=
  ⟨by decide, by decide⟩

/-- C10 (amended). Both pre-validation rejections leave the upload root
exactly as it was — no case directory created, no file written: with no
file object the root is returned untouched, and likewise when
`allowed_file` rejects the name.  After validation, size-limit rejection
(under the uuid-freshness hypothesis) leaves exactly `ensureDir fs c`:
at most a newly created empty case directory.  A write failure leaves
the ensured directory plus whatever partial destination file the
interrupted save wrote — possibly a non-empty newly created directory,
since nothing on that path removes the partial file. -/
theorem C10_frame_effects (H : HashModel) (env : Env) (fs : FS) (c u : String) :
    (save_uploaded_file H env fs none c u =
      some (IngestResult.failure "No file provided", fs)) ∧
    (∀ f : FileStorage, allowed_file f.filename = false →
      save_uploaded_file H env fs (some f) c u =
        some (IngestResult.failure unsupportedTypeMsg, fs)) ∧
    (∀ (f : FileStorage) (e : List Char) (msg : String) (written : Option Bytes),
      allowed_file f.filename = true →
      afterLastDot (secure_filename f.filename).data = some e →
      env.saveError = some (msg, written) →
      save_uploaded_file H env fs (some f) c u =
        some (IngestResult.failure ("Failed to save file: " ++ msg),
          saveFailState (ensureDir fs c) c
            (env.uid ++ "." ++ String.mk (lowerChars e)) written)) ∧
    (∀ (f : FileStorage) (e : List Char),
      allowed_file f.filename = true →
      afterLastDot (secure_filename f.filename).data = some e →
      env.saveError = none →
      f.content.length > MAX_FILE_SIZE →
      (∀ d, lookupKey (ensureDir fs c) c = some d →
        lookupKey d (env.uid ++ "." ++ String.mk (lowerChars e)) = none) →
      save_uploaded_file H env fs (some f) c u =
        some (IngestResult.failure fileTooLargeMsg, ensureDir fs c)) := by
  refine ⟨save_run_noFile H env fs c u, ?_, ?_, ?_⟩
  · intro f ha
    exact save_run_unsupported H env fs c u ha
  · intro f e msg written ha he hs
    exact save_run_saveError H env fs c u ha he hs
  · intro f e ha he hs hsz hfresh
    rw [save_run_tooLarge H env fs c u ha he hs hsz, removeIn_writeIn hfresh]

theorem C10_witness :
    allowed_file "virus.exe" = false ∧
    save_uploaded_file listHash { uid := "u7", saveError := none } []
      (some { filename := "virus.exe", content := [2] }) "SAML-00002" "w" =
      some (IngestResult.failure unsupportedTypeMsg, []) :=
  ⟨by decide,
   (C10_frame_effects listHash { uid := "u7", saveError := none } [] "SAML-00002" "w").2.1
     { filename := "virus.exe", content := [2] } (by decide)⟩
